import Mathlib

/-!
# Verification of the tabular ingestion-and-export pipeline

Shallow embedding of `src/data_scraping.py`: the JSON-to-table conversion
performed by `fetch_api_data`, the delimited-text encoder (`to_csv`) and
parser (`read_csv`), the uploaded-file dispatch, the line-delimited JSON
fallback, and the four export encoders.

Python strings are modelled as `List Char`; machine text is kept as
character lists throughout.  JSON numbers are modelled as integers (the
claims under study never depend on floating-point values).
-/

/-- Whitespace characters recognised by Python's `json` module and by
`str.strip` for the characters that can actually occur here. -/
def isWsChar (c : Char) : Bool :=
  c = ' ' || c = '\t' || c = '\n' || c = '\r'

/-- The decimal digit characters, used to print integers the way Python's
`str` does. -/
def digitChar : Nat → Char
  | 0 => '0'
  | 1 => '1'
  | 2 => '2'
  | 3 => '3'
  | 4 => '4'
  | 5 => '5'
  | 6 => '6'
  | 7 => '7'
  | 8 => '8'
  | _ => '9'

/-- Numeric value of a decimal digit character. -/
def charDigit (c : Char) : Nat := c.toNat - 48

/-- Big-endian decimal digits of a positive number; `fuel` bounds the
number of divisions so the recursion is structural. -/
def natToCharsAux : Nat → Nat → List Char
  | 0, _ => []
  | fuel + 1, n =>
    if n = 0 then [] else natToCharsAux fuel (n / 10) ++ [digitChar (n % 10)]

/-- Decimal rendering of a natural number, as Python's `str` produces it. -/
def natToChars (n : Nat) : List Char :=
  if n = 0 then ['0'] else natToCharsAux n n

/-- One Horner step of decimal parsing. -/
def digitStep (acc : Nat) (c : Char) : Nat := 10 * acc + charDigit c

/-- Parse a big-endian decimal digit string (Horner evaluation). -/
def natOfChars (cs : List Char) : Nat :=
  cs.foldl digitStep 0

/-- Decimal rendering of an integer, as Python's `str` produces it. -/
def intToChars (i : Int) : List Char :=
  if i < 0 then '-' :: natToChars i.natAbs else natToChars i.toNat

/-- Does the string have the shape of an integer literal accepted by the
delimited-text parser's type inference (optional sign, then digits)? -/
def intLike (s : List Char) : Bool :=
  match s with
  | [] => false
  | c :: rest =>
    if c = '-' || c = '+' then !rest.isEmpty && rest.all Char.isDigit
    else (c :: rest).all Char.isDigit

/-- Integer value of an `intLike` string. -/
def parseIntChars (s : List Char) : Int :=
  match s with
  | '-' :: rest => -(natOfChars rest : Int)
  | '+' :: rest => (natOfChars rest : Int)
  | _ => (natOfChars s : Int)

/-- Infinity spellings the delimited-text parser coerces to floats. -/
def infTokens : List (List Char) :=
  ["inf", "-inf", "+inf", "Inf", "-Inf", "+Inf", "INF", "-INF", "+INF",
   "infinity", "Infinity", "-Infinity", "+Infinity"].map String.data

/-- A deliberately generous over-approximation of the strings the
delimited-text parser may coerce to a numeric type: anything built solely
from digits, sign, decimal point and exponent letters, plus the infinity
spellings.  Excluding these keeps a string cell out of the parser's
numeric coercion. -/
def floatLike (s : List Char) : Bool :=
  !s.isEmpty &&
    s.all (fun c => c.isDigit || c = '.' || c = 'e' || c = 'E' || c = '+' || c = '-') &&
    s.any Char.isDigit

/-- Strings that may be subject to numeric coercion when re-parsed. -/
def numLike (s : List Char) : Bool :=
  intLike s || floatLike s || infTokens.contains s

/-- Default missing-value sentinels of the delimited-text parser
(pandas `read_csv` default `na_values`, minus the empty string, which is
handled separately). -/
def naTokens : List (List Char) :=
  ["#N/A", "#N/A N/A", "#NA", "-1.#IND", "-1.#QNAN", "-NaN", "-nan",
   "1.#IND", "1.#QNAN", "<NA>", "N/A", "NA", "NULL", "NaN", "None",
   "n/a", "nan", "null"].map String.data

/-- Spellings the delimited-text parser reads back as boolean `True`. -/
def trueTokens : List (List Char) := ["True", "TRUE"].map String.data

/-- Spellings the delimited-text parser reads back as boolean `False`. -/
def falseTokens : List (List Char) := ["False", "FALSE"].map String.data

/-- Parsed JSON documents (`json.loads` output).  Numbers are restricted
to integers; see the module docstring. -/
inductive Json where
  | jnull : Json
  | jbool (b : Bool) : Json
  | jnum (n : Int) : Json
  | jstr (s : List Char) : Json
  | jarr (xs : List Json) : Json
  | jobj (fs : List (List Char × Json)) : Json

/-- A scalar cell of the Tabular Dataset.  `vjson` holds a nested JSON
value stored verbatim in a cell (pandas keeps the Python object).
`vfloat n` models a float of integral value, the shape produced when the
delimited-text parser promotes an integer column containing missing
values to floats; its rendering `n.0` matches Python for the magnitudes
such promotion produces below 10^16 (general floats are out of scope, as
stated in the module docstring). -/
inductive Value where
  | vint (n : Int) : Value
  | vfloat (n : Int) : Value
  | vstr (s : List Char) : Value
  | vbool (b : Bool) : Value
  | vnull : Value
  | vjson (j : Json) : Value

/-- The Tabular Dataset: an ordered list of column names and a list of
rows, each row listing one cell per column. -/
structure DataFrame where
  cols : List (List Char)
  rows : List (List Value)

/-- The empty Tabular Dataset (`pd.DataFrame()`): zero rows, zero columns. -/
def emptyDF : DataFrame := ⟨[], []⟩

/-- `df.empty`: true when either axis has length zero. -/
def dfEmpty (df : DataFrame) : Bool :=
  df.rows.isEmpty || df.cols.isEmpty

def lbraceC : Char := '\x7b'
def rbraceC : Char := '\x7d'
def squoteC : Char := Char.ofNat 39

mutual

/-- Python `repr` of a parsed JSON value (how a nested object prints when
stringified inside a cell). -/
def reprJson : Json → List Char
  | .jnull => "None".data
  | .jbool b => if b then "True".data else "False".data
  | .jnum n => intToChars n
  | .jstr s => squoteC :: s ++ [squoteC]
  | .jarr xs => '[' :: reprCommaList xs ++ [']']
  | .jobj fs => lbraceC :: reprCommaFields fs ++ [rbraceC]

/-- Comma-joined reprs of the elements of a Python list. -/
def reprCommaList : List Json → List Char
  | [] => []
  | [x] => reprJson x
  | x :: y :: rest => reprJson x ++ ", ".data ++ reprCommaList (y :: rest)

/-- Comma-joined `key: value` reprs of the entries of a Python dict. -/
def reprCommaFields : List (List Char × Json) → List Char
  | [] => []
  | [kv] => squoteC :: kv.1 ++ squoteC :: ':' :: ' ' :: reprJson kv.2
  | kv :: kv2 :: rest =>
    (squoteC :: kv.1 ++ squoteC :: ':' :: ' ' :: reprJson kv.2) ++ ", ".data ++
      reprCommaFields (kv2 :: rest)

end

/-- `str()` of a cell value, as Python renders it. -/
def pyStr : Value → List Char
  | .vint n => intToChars n
  | .vfloat n => intToChars n ++ ".0".data
  | .vstr s => s
  | .vbool b => if b then "True".data else "False".data
  | .vnull => "nan".data
  | .vjson j => reprJson j

/-! ## Delimited-text encoder (`df.to_csv(index=False)`) and parser
(`pd.read_csv`), modelled at the level of Python's `csv` module, which
pandas uses for writing: QUOTE_MINIMAL quoting (a field is quoted when it
contains the delimiter, the quote character, or a line-break character,
with embedded quotes doubled), and a record that is a single empty field
is written as a pair of quotes so it is not mistaken for a blank line. -/

/-- Does the field need quoting under QUOTE_MINIMAL? -/
def needsQuote (s : List Char) : Bool :=
  s.any (fun c => c = ',' || c = '"' || c = '\n' || c = '\r')

/-- Double every quote character (the csv module's doublequote escaping). -/
def escQuotes : List Char → List Char
  | [] => []
  | c :: cs => if c = '"' then '"' :: '"' :: escQuotes cs else c :: escQuotes cs

/-- Serialize one field under QUOTE_MINIMAL. -/
def writeField (f : List Char) : List Char :=
  if needsQuote f then '"' :: escQuotes f ++ ['"'] else f

/-- Serialize one record (comma-joined fields); a lone empty field is
written quoted, as Python's csv writer does. -/
def writeRecord : List (List Char) → List Char
  | [] => []
  | [f] => if f = [] then ['"', '"'] else writeField f
  | f :: g :: gs => writeField f ++ ',' :: writeRecord (g :: gs)

/-- Serialize a list of records, each terminated by a newline. -/
def writeCsv : List (List (List Char)) → List Char
  | [] => []
  | r :: rs => writeRecord r ++ '\n' :: writeCsv rs

/-- The text written for one cell: missing values print as nothing
(`to_csv` default `na_rep` is the empty string), other scalars via `str`. -/
def cellField : Value → List Char
  | .vnull => []
  | v => pyStr v

/-- `df.to_csv(index=False)`: header record of column names followed by
one record per row. -/
def to_csv (df : DataFrame) : List Char :=
  writeCsv (df.cols :: df.rows.map (fun r => r.map cellField))

/-- `export_to_csv`: the delimited-text encoder returns the csv text
encoded as bytes; the byte buffer is modelled by the character list. -/
def export_to_csv (df : DataFrame) : List Char := to_csv df

/-- Append a character to the current (first) field of a partial record. -/
def consField (c : Char) : List (List Char) × List Char → List (List Char) × List Char
  | ([], r) => ([[c]], r)
  | (f :: fs, r) => ((c :: f) :: fs, r)

/-- Tokenize one record of a delimited-text file.  The Boolean is the
quote state (`true` inside a quoted section).  Returns the record's fields
and the text after the record's terminating newline. -/
def parseRec : Bool → List Char → List (List Char) × List Char
  | _, [] => ([[]], [])
  | false, c :: cs =>
    if c = ',' then
      let p := parseRec false cs
      ([] :: p.1, p.2)
    else if c = '\n' then ([[]], cs)
    else if c = '"' then parseRec true cs
    else consField c (parseRec false cs)
  | true, c :: cs =>
    if c = '"' then
      match cs with
      | [] => ([[]], [])
      | c2 :: cs2 => if c2 = '"' then consField '"' (parseRec true cs2) else parseRec false (c2 :: cs2)
    else consField c (parseRec true cs)

/-- Split a file into records, skipping blank lines (`skip_blank_lines`
default).  `fuel` bounds the number of records; each record consumes at
least one character, so `cs.length` is always enough. -/
def parseRecordsGo : Nat → List Char → List (List (List Char))
  | 0, _ => []
  | _ + 1, [] => []
  | fuel + 1, c :: cs =>
    if c = '\n' then parseRecordsGo fuel cs
    else
      let p := parseRec false (c :: cs)
      p.1 :: parseRecordsGo fuel p.2

def parseRecords (cs : List Char) : List (List (List Char)) :=
  parseRecordsGo cs.length cs

/-- Is the field read as a missing value by the delimited-text
parser?  Inference is per column, all-or-nothing, as pandas does it:
empty fields and NA sentinels are missing in every column; a column whose
non-missing fields are all integer-shaped becomes an integer column, or a
float column when it also contains missing values (a 64-bit integer
column cannot hold a missing value); a column whose fields are all
boolean spellings with no missing values becomes a boolean column; every
other column keeps its raw strings.  (General float coercion is not
modelled — a column of float-shaped strings stays textual here; the
theorems below keep such fields out of scope.) -/
def naField (s : List Char) : Bool :=
  s.isEmpty || decide (s ∈ naTokens)

/-- Is the field one of the parser's boolean spellings? -/
def boolField (s : List Char) : Bool :=
  decide (s ∈ trueTokens) || decide (s ∈ falseTokens)

/-- The type a whole column is converted to. -/
inductive ColMode where
  | cint : ColMode
  | cfloat : ColMode
  | cbool : ColMode
  | cobj : ColMode

/-- Decide the conversion applied to one column from all of its fields:
integer when every non-missing field is integer-shaped (promoted to float
when the column also has missing fields), boolean when every field is a
boolean spelling and none is missing, raw strings otherwise. -/
def colMode (fields : List (List Char)) : ColMode :=
  if (fields.filter (fun s => !naField s)).all intLike then
    if (fields.filter (fun s => !naField s)).length = fields.length then .cint
    else .cfloat
  else if (fields.filter (fun s => !naField s)).all boolField = true ∧
      (fields.filter (fun s => !naField s)).length = fields.length then .cbool
  else .cobj

/-- Convert one field under its column's mode; missing-value fields
become missing whatever the column type. -/
def convertField (m : ColMode) (s : List Char) : Value :=
  if naField s then .vnull
  else
    match m with
    | .cint => .vint (parseIntChars s)
    | .cfloat => .vfloat (parseIntChars s)
    | .cbool => .vbool (decide (s ∈ trueTokens))
    | .cobj => .vstr s

/-- `pd.read_csv`: first non-blank record is the header (taken verbatim,
no inference), remaining records are data rows, each column converted
under its own inferred mode.  `none` models a raised parser error (no
records at all, or a ragged row). -/
def read_csv (cs : List Char) : Option DataFrame :=
  match parseRecords cs with
  | [] => none
  | header :: rows =>
    if rows.all (fun r => r.length = header.length) then
      let modes := (List.range header.length).map
        (fun j => colMode (rows.map (fun r => r.getD j [])))
      some ⟨header, rows.map (fun r => List.zipWith convertField modes r)⟩
    else none

/-! ## `json.loads`, modelled as a recursive-descent parser over the JSON
grammar.  Fuel makes the recursion structural; the top-level call supplies
`length + 1` fuel, which is sufficient because every nesting level
consumes at least one character.  Divergences from Python kept
deliberately: floating-point literals are rejected (numbers are modelled
as integers), so a document Python would parse to floats is treated as a
parse failure. -/

def skipWs (cs : List Char) : List Char := cs.dropWhile isWsChar

/-- Value of a hexadecimal digit. -/
def hexVal (c : Char) : Option Nat :=
  if c.isDigit then some (c.toNat - 48)
  else if 'a' ≤ c ∧ c ≤ 'f' then some (c.toNat - 87)
  else if 'A' ≤ c ∧ c ≤ 'F' then some (c.toNat - 55)
  else none

/-- Parse the body of a JSON string literal (the opening quote already
consumed): ends at an unescaped quote, handles the standard escapes and
`\uXXXX`, rejects raw control characters as Python does in strict mode. -/
def pString : List Char → Option (List Char × List Char)
  | [] => none
  | c :: cs =>
    if c = '"' then some ([], cs)
    else if c = '\\' then
      match cs with
      | [] => none
      | e :: cs2 =>
        if e = '"' then (pString cs2).map (fun p => ('"' :: p.1, p.2))
        else if e = '\\' then (pString cs2).map (fun p => ('\\' :: p.1, p.2))
        else if e = '/' then (pString cs2).map (fun p => ('/' :: p.1, p.2))
        else if e = 'b' then (pString cs2).map (fun p => ('\x08' :: p.1, p.2))
        else if e = 'f' then (pString cs2).map (fun p => ('\x0c' :: p.1, p.2))
        else if e = 'n' then (pString cs2).map (fun p => ('\n' :: p.1, p.2))
        else if e = 'r' then (pString cs2).map (fun p => ('\r' :: p.1, p.2))
        else if e = 't' then (pString cs2).map (fun p => ('\t' :: p.1, p.2))
        else if e = 'u' then
          match cs2 with
          | h1 :: h2 :: h3 :: h4 :: cs3 =>
            match hexVal h1, hexVal h2, hexVal h3, hexVal h4 with
            | some a, some b, some c3, some d =>
              (pString cs3).map
                (fun p => (Char.ofNat (((a * 16 + b) * 16 + c3) * 16 + d) :: p.1, p.2))
            | _, _, _, _ => none
          | _ => none
        else none
    else if c.toNat < 32 then none
    else (pString cs).map (fun p => (c :: p.1, p.2))

/-- Parse a JSON integer literal.  A JSON number may not have a leading
zero, and float syntax (fraction or exponent) is rejected here — see the
section comment. -/
def pNumber (cs : List Char) : Option (Int × List Char) :=
  let neg : Bool := match cs with
                    | c :: _ => c = '-'
                    | [] => false
  let cs1 := if neg then cs.tail else cs
  let digits := match cs1 with
                | c :: _ => if c = '0' then ['0'] else cs1.takeWhile Char.isDigit
                | [] => []
  let rest := cs1.drop digits.length
  if digits.isEmpty then none
  else
    match rest with
    | c :: _ => if c = '.' || c = 'e' || c = 'E' then none
                else some (if neg then -(natOfChars digits : Int) else (natOfChars digits : Int), rest)
    | [] => some (if neg then -(natOfChars digits : Int) else (natOfChars digits : Int), rest)

/-- Python dict insertion: an existing key keeps its position and takes
the new value, a new key is appended. -/
def upsertPair (k : List Char) (v : Json) : List (List Char × Json) → List (List Char × Json)
  | [] => [(k, v)]
  | (k2, v2) :: rest => if k2 = k then (k2, v) :: rest else (k2, v2) :: upsertPair k v rest

/-- Build a Python dict from the parsed key-value pairs in source order. -/
def dictOfPairs (ps : List (List Char × Json)) : List (List Char × Json) :=
  ps.foldl (fun acc kv => upsertPair kv.1 kv.2 acc) []

/-- Parse the comma-separated elements of a non-empty JSON array, up to
and including the closing bracket.  `pv` parses one value. -/
def pElems (pv : List Char → Option (Json × List Char)) :
    Nat → List Char → Option (List Json × List Char)
  | 0, _ => none
  | fuel + 1, cs =>
    match pv cs with
    | none => none
    | some (v, r) =>
      match skipWs r with
      | ',' :: r2 => (pElems pv fuel r2).map (fun p => (v :: p.1, p.2))
      | ']' :: r2 => some ([v], r2)
      | _ => none

/-- Parse the comma-separated members of a non-empty JSON object, up to
and including the closing brace. -/
def pMembers (pv : List Char → Option (Json × List Char)) :
    Nat → List Char → Option (List (List Char × Json) × List Char)
  | 0, _ => none
  | fuel + 1, cs =>
    match skipWs cs with
    | [] => none
    | c :: r0 =>
      if c = '"' then
        match pString r0 with
        | none => none
        | some (k, r1) =>
          match skipWs r1 with
          | ':' :: r2 =>
            match pv r2 with
            | none => none
            | some (v, r3) =>
              match skipWs r3 with
              | c3 :: r4 =>
                if c3 = ',' then (pMembers pv fuel r4).map (fun p => ((k, v) :: p.1, p.2))
                else if c3 = rbraceC then some ([(k, v)], r4)
                else none
              | [] => none
          | _ => none
      else none

/-- Parse one JSON value (leading whitespace allowed). -/
def pValue : Nat → List Char → Option (Json × List Char)
  | 0, _ => none
  | fuel + 1, cs =>
    match skipWs cs with
    | [] => none
    | c :: rest =>
      if c = 'n' then
        if rest.take 3 = ['u', 'l', 'l'] then some (.jnull, rest.drop 3) else none
      else if c = 't' then
        if rest.take 3 = ['r', 'u', 'e'] then some (.jbool true, rest.drop 3) else none
      else if c = 'f' then
        if rest.take 4 = ['a', 'l', 's', 'e'] then some (.jbool false, rest.drop 4) else none
      else if c = '"' then (pString rest).map (fun p => (.jstr p.1, p.2))
      else if c = '-' || c.isDigit then (pNumber (c :: rest)).map (fun p => (.jnum p.1, p.2))
      else if c = '[' then
        match skipWs rest with
        | ']' :: r2 => some (.jarr [], r2)
        | _ => (pElems (pValue fuel) (fuel + 1) rest).map (fun p => (.jarr p.1, p.2))
      else if c = lbraceC then
        match skipWs rest with
        | c2 :: r2 =>
          if c2 = rbraceC then some (.jobj [], r2)
          else (pMembers (pValue fuel) (fuel + 1) rest).map
            (fun p => (.jobj (dictOfPairs p.1), p.2))
        | [] => none
      else none

/-- `json.loads`: parse a whole document, requiring only whitespace after
the value (Python raises `Extra data` otherwise, modelled as `none`). -/
def json_loads (cs : List Char) : Option Json :=
  match pValue (cs.length + 1) cs with
  | some (j, r) => if skipWs r = [] then some j else none
  | none => none

/-! ## Building a Tabular Dataset from parsed JSON (`pd.DataFrame`),
the remote-fetch adapter (`fetch_api_data`), the uploaded-file dispatch,
and the line-delimited JSON fallback. -/

/-- Is the parsed value a mapping? -/
def isObjB : Json → Bool
  | .jobj _ => true
  | _ => false

/-- The fields of a mapping (empty for other shapes). -/
def objFields : Json → List (List Char × Json)
  | .jobj fs => fs
  | _ => []

/-- Field names of a record. -/
def recKeys (j : Json) : List (List Char) := (objFields j).map Prod.fst

/-- Order-preserving duplicate removal (first occurrence wins), matching
how column labels accumulate across records. -/
def dedupKeys (seen : List (List Char)) : List (List Char) → List (List Char)
  | [] => []
  | k :: ks => if k ∈ seen then dedupKeys seen ks else k :: dedupKeys (k :: seen) ks

/-- First binding of a key in an association list. -/
def lookupKey (k : List Char) : List (List Char × Value) → Option Value
  | [] => none
  | (k2, v) :: rest => if k2 = k then some v else lookupKey k rest

/-- A scalar JSON value as a cell; sequences and mappings are stored
verbatim as Python objects. -/
def toCell : Json → Value
  | .jnull => .vnull
  | .jbool b => .vbool b
  | .jnum n => .vint n
  | .jstr s => .vstr s
  | j => .vjson j

/-- Build a Tabular Dataset from one association list per row: columns
are the union of the keys in order of first appearance; a row's cell is
its value for that column, or missing when the key is absent. -/
def dfFromRows (rs : List (List (List Char × Value))) : DataFrame :=
  let cols := dedupKeys [] (rs.map (fun r => r.map Prod.fst)).flatten
  ⟨cols, rs.map (fun r => cols.map (fun c => (lookupKey c r).getD .vnull))⟩

/-- `pd.DataFrame` on a list of mappings. -/
def dfFromRecords (xs : List Json) : DataFrame :=
  dfFromRows (xs.map (fun j => (objFields j).map (fun kv => (kv.1, toCell kv.2))))

/-- `pd.DataFrame` on a list that is not entirely mappings: a single
positional column labelled `0`. -/
def dfFromScalarList (xs : List Json) : DataFrame :=
  ⟨[['0']], xs.map (fun x => [toCell x])⟩

/-- `pd.DataFrame(data)` dispatch on the parsed JSON shape, as performed
in `fetch_api_data`: a sequence of records becomes one row per record, a
single mapping becomes one row, anything else the empty dataset. -/
def jsonToDf : Json → DataFrame
  | .jarr xs => if xs.all isObjB then dfFromRecords xs else dfFromScalarList xs
  | .jobj fs => dfFromRecords [.jobj fs]
  | _ => emptyDF

/-- What the network layer handed back to `fetch_api_data`: either a
raised exception (connection failure, timeout, too many redirects, ...)
or a response with its status code and the result of `response.json()`
(`none` when the body is not parseable JSON). -/
inductive ApiResult where
  | netError : ApiResult
  | response (status : Nat) (body : Option Json) : ApiResult

/-- The message prefix `fetch_api_data` shows via `st.error`. -/
def fetchErrorMsg : List Char := "Error fetching API: ".data

/-- `fetch_api_data`: `raise_for_status` raises for client-error (4xx)
and server-error (5xx) codes; every exception inside the function is
caught, surfaced as an error message, and replaced by the empty dataset.
Returns the dataset and the list of user-visible error messages. -/
def fetch_api_data : ApiResult → DataFrame × List (List Char)
  | .netError => (emptyDF, [fetchErrorMsg])
  | .response status body =>
    if 400 ≤ status ∧ status ≤ 599 then (emptyDF, [fetchErrorMsg])
    else
      match body with
      | none => (emptyDF, [fetchErrorMsg])
      | some j => (jsonToDf j, [])

/-- The claim's notion of a successful HTTP status: 2xx. -/
def httpSuccess (status : Nat) : Bool := 200 ≤ status && status ≤ 299

/-- Inputs on which the fetch fails: a raised network error, a 4xx/5xx
status, or an unparseable body. -/
def isFailure : ApiResult → Prop
  | .netError => True
  | .response status body => (400 ≤ status ∧ status ≤ 599) ∨ body = none

/-- The header field of the form: `json.loads` of the text, with a parse
failure silently degrading to `None` (no message is emitted). -/
def parseHeaderField (s : List Char) : Option Json × List (List Char) :=
  (json_loads s, [])

/-- The body field of the form, handled identically. -/
def parseBodyField (s : List Char) : Option Json × List (List Char) :=
  (json_loads s, [])

/-- Dotted-path flattening performed by `pd.json_normalize` on nested
mappings; non-mapping values (including sequences) stay as cells.  Fueled
for structural recursion; unreachable with the fuel supplied below. -/
def flattenPairs : Nat → List Char → List (List Char × Json) → List (List Char × Value)
  | 0, _, _ => []
  | fuel + 1, path, fs =>
    fs.flatMap (fun kv =>
      let full := if path = [] then kv.1 else path ++ '.' :: kv.1
      match kv.2 with
      | .jobj gs => flattenPairs fuel full gs
      | v => [(full, toCell v)])

mutual

/-- Nesting depth available to `flattenPairs`. -/
def jsonFuel : Json → Nat
  | .jobj fs => 1 + fieldsFuel fs
  | _ => 1

/-- Greatest nesting depth among a mapping's values. -/
def fieldsFuel : List (List Char × Json) → Nat
  | [] => 0
  | kv :: rest => Nat.max (jsonFuel kv.2) (fieldsFuel rest)

end

/-- `pd.json_normalize`: a mapping yields one flattened row, a sequence
of mappings one flattened row each; any other argument raises (`none`,
caught by the caller). -/
def json_normalize : Json → Option DataFrame
  | .jobj fs => some (dfFromRows [flattenPairs (jsonFuel (.jobj fs)) [] fs])
  | .jarr xs =>
    if xs.all isObjB then
      some (dfFromRows (xs.map (fun j => flattenPairs (jsonFuel j) [] (objFields j))))
    else none
  | _ => none

/-- Strip leading and trailing whitespace (Python `str.strip`). -/
def stripWs (s : List Char) : List Char :=
  ((s.dropWhile isWsChar).reverse.dropWhile isWsChar).reverse

/-- Split on newlines. -/
def splitNl : List Char → List (List Char)
  | [] => [[]]
  | c :: cs =>
    if c = '\n' then [] :: splitNl cs
    else
      match splitNl cs with
      | [] => [[c]]
      | l :: ls => (c :: l) :: ls

/-- The non-blank stripped lines of a file, as `pd.read_json(lines=True)`
collects them before parsing each as a JSON document. -/
def linesOf (content : List Char) : List (List Char) :=
  ((splitNl content).map stripWs).filter (fun l => l ≠ [])

/-- Collect a list of optional results, failing if any failed. -/
def seqOptions : List (Option α) → Option (List α)
  | [] => some []
  | none :: _ => none
  | some a :: rest => (seqOptions rest).map (fun l => a :: l)

/-- `pd.read_json(lines=True)`: parse every non-blank line as a JSON
document and build the dataset from the resulting sequence; any
unparseable line raises (`none`). -/
def read_json_lines (content : List Char) : Option DataFrame :=
  match seqOptions ((linesOf content).map json_loads) with
  | none => none
  | some vs => some (jsonToDf (.jarr vs))

/-- The uploaded-`.json` handling: try a single document first
(`json.loads` + `pd.json_normalize`); on a parse failure fall back to
line-delimited JSON.  `none` models an exception reaching the upload
branch's handler. -/
def uploadJson (content : List Char) : Option DataFrame :=
  match json_loads content with
  | some j => json_normalize j
  | none => read_json_lines content

/-- Case-sensitive `str.endswith`. -/
def endsWith (s suffTxt : List Char) : Bool :=
  suffTxt.length ≤ s.length && s.drop (s.length - suffTxt.length) = suffTxt

/-- The message prefix of the upload branch's exception handler. -/
def uploadErrMsg : List Char := "Error reading uploaded file: ".data

/-- The uploaded-file branch: dispatch on the exact lowercase suffix of
the file name; a name matching no branch takes no parsing action, so the
prior dataset is kept and displayed.  The spreadsheet parser operates on
an opaque binary format and is abstracted as the argument `xlsxParse`.
Returns the dataset after the branch, the error messages shown, and the
dataset displayed by `st.dataframe` (if reached). -/
def handleUpload (xlsxParse : List Char → Option DataFrame) (df0 : DataFrame)
    (name content : List Char) : DataFrame × List (List Char) × Option DataFrame :=
  if endsWith name ".csv".data then
    match read_csv content with
    | some d => (d, [], some d)
    | none => (df0, [uploadErrMsg], none)
  else if endsWith name ".xlsx".data then
    match xlsxParse content with
    | some d => (d, [], some d)
    | none => (df0, [uploadErrMsg], none)
  else if endsWith name ".json".data then
    match uploadJson content with
    | some d => (d, [], some d)
    | none => (df0, [uploadErrMsg], none)
  else (df0, [], some df0)

/-! ## Export encoders.  The spreadsheet, word-processing and PDF writers
go through libraries that embed the wall-clock generation time in the
output bytes: the spreadsheet library stamps the workbook's core
properties with the current time, both the spreadsheet and the word
archive are zip files whose entries carry the current local time as their
modification time, and the PDF library writes a `/CreationDate` entry
from the current time.  That dependence is made explicit by a `now`
parameter; everything else about a buffer is a function of the dataset
alone. -/

/-- One drawing operation of the PDF encoder. -/
inductive PdfOp where
  | cell (w h : ℚ) (txt : List Char) (border : Bool) : PdfOp
  | lineBreak (h : ℚ) : PdfOp

/-- A4 portrait page width in the library's default millimetre units
(595.28 pt divided by the scale factor 72 / 25.4). -/
def pdfPageW : ℚ := (59528 / 100) * (254 / 10) / 72

/-- The 12 pt font converted to millimetres (`pdf.font_size`). -/
def pdfFontSize : ℚ := 12 * (254 / 10) / 72

/-- The PDF byte buffer: the drawing operations plus the embedded
creation date. -/
structure PdfBuf where
  ops : List PdfOp
  creationDate : Nat

/-- `export_to_pdf`: a centred title cell, a spacer, then one bordered
cell per column name and per stringified data cell, all with the uniform
width `page width / (column count + 1)` and height `1.5 × font size`. -/
def export_to_pdf (now : Nat) (df : DataFrame) : PdfBuf :=
  let colW : ℚ := pdfPageW / (df.cols.length + 1)
  let rowH : ℚ := pdfFontSize * (3 / 2)
  ⟨PdfOp.cell 200 10 "Data Export".data false :: PdfOp.lineBreak 10 ::
    (df.cols.map (fun c => PdfOp.cell colW rowH c true) ++ [PdfOp.lineBreak rowH] ++
      (df.rows.map (fun r => r.map (fun v => PdfOp.cell colW rowH (pyStr v) true) ++
        [PdfOp.lineBreak rowH])).flatten),
    now⟩

/-- The spreadsheet byte buffer: the worksheet contents plus the
workbook-properties creation stamp and the zip entries' modification
time. -/
structure XlsxBuf where
  header : List (List Char)
  cells : List (List Value)
  created : Nat
  zipTime : Nat

/-- `export_to_excel`: single worksheet, header row then data rows. -/
def export_to_excel (now : Nat) (df : DataFrame) : XlsxBuf :=
  ⟨df.cols, df.rows, now, now⟩

/-- The word-processing byte buffer: heading, the table (header row then
stringified data rows), and the zip entries' modification time. -/
structure DocxBuf where
  heading : List Char
  table : List (List (List Char))
  zipTime : Nat

/-- `export_to_word`: a heading and a grid table whose first row is the
column names and whose data cells are stringified. -/
def export_to_word (now : Nat) (df : DataFrame) : DocxBuf :=
  ⟨"Data Export".data, df.cols :: df.rows.map (fun r => r.map pyStr), now⟩

/-- The four buffers produced by the export section. -/
structure ExportBundle where
  csvBuf : List Char
  xlsxBuf : XlsxBuf
  docxBuf : DocxBuf
  pdfBuf : PdfBuf

/-- The export section: rendered only when `df.empty` is false, in which
case all four encoders run; otherwise no encoder is invoked and no
download control exists. -/
def exportSection (now : Nat) (df : DataFrame) : Option ExportBundle :=
  if dfEmpty df then none
  else some ⟨export_to_csv df, export_to_excel now df, export_to_word now df,
             export_to_pdf now df⟩

/-- Prepend text onto the first field of a partial record. -/
def prependField (f : List Char) : List (List Char) × List Char → List (List Char) × List Char
  | ([], r) => ([f], r)
  | (g :: gs, r) => ((f ++ g) :: gs, r)



/-- A string cell that survives the delimited-text round trip: nonempty
and not mistakable for a number, a boolean or an NA sentinel. -/
def goodStr (s : List Char) : Prop :=
  s ≠ [] ∧ numLike s = false ∧ s ∉ trueTokens ∧ s ∉ falseTokens ∧ s ∉ naTokens

instance : DecidablePred goodStr := fun s =>
  inferInstanceAs (Decidable (s ≠ [] ∧ numLike s = false ∧
    s ∉ trueTokens ∧ s ∉ falseTokens ∧ s ∉ naTokens))

/-- Is the cell an integer within the parser's 64-bit column range?
(The model's integers are unbounded; the bound records where the 64-bit
abstraction is honest.) -/
def isIntCell : Value → Prop
  | .vint n => -(2 ^ 63) ≤ n ∧ n < 2 ^ 63
  | _ => False

instance : DecidablePred isIntCell := fun v =>
  match v with
  | .vint n => inferInstanceAs (Decidable (-(2 ^ 63) ≤ n ∧ n < 2 ^ 63))
  | .vfloat _ => .isFalse (fun h => h)
  | .vstr _ => .isFalse (fun h => h)
  | .vbool _ => .isFalse (fun h => h)
  | .vnull => .isFalse (fun h => h)
  | .vjson _ => .isFalse (fun h => h)

/-- Is the cell a boolean? -/
def isBoolCell : Value → Bool
  | .vbool _ => true
  | _ => false

/-- Is the cell a missing value or a well-behaved string? -/
def isStrNullCell : Value → Prop
  | .vnull => True
  | .vstr s => goodStr s
  | _ => False

instance : DecidablePred isStrNullCell := fun v =>
  match v with
  | .vnull => .isTrue trivial
  | .vstr s => inferInstanceAs (Decidable (goodStr s))
  | .vint _ => .isFalse (fun h => h)
  | .vfloat _ => .isFalse (fun h => h)
  | .vbool _ => .isFalse (fun h => h)
  | .vjson _ => .isFalse (fun h => h)

/-- The cells of one column of the dataset. -/
def colCells (df : DataFrame) (j : Nat) : List Value :=
  df.rows.map (fun r => r.getD j .vnull)

/-- A column that survives the parser's column-wise inference unchanged:
homogeneously integer, homogeneously boolean, or a mix of missing values
and well-behaved strings.  Mixed columns come back as raw strings, and an
integer column containing a missing value is promoted to floats, so
neither is restored exactly. -/
def goodColumn (col : List Value) : Prop :=
  (∀ v ∈ col, isIntCell v) ∨ (∀ v ∈ col, isBoolCell v = true) ∨
    (∀ v ∈ col, isStrNullCell v)

instance (col : List Value) : Decidable (goodColumn col) :=
  inferInstanceAs (Decidable ((∀ v ∈ col, isIntCell v) ∨
    (∀ v ∈ col, isBoolCell v = true) ∨ (∀ v ∈ col, isStrNullCell v)))

/-- First binding of a key among a record's fields. -/
def jlookup (k : List Char) : List (List Char × Json) → Option Json
  | [] => none
  | (k2, v) :: rest => if k2 = k then some v else jlookup k rest

/-- Two sample records with different field names. -/
def demoRecords : List Json :=
  [.jobj [("a".data, .jnum 1)], .jobj [("b".data, .jnum 2)]]

/-- A sample table with one column per homogeneous column kind,
exercising delimiter escaping, negative numbers, booleans and a
string-with-missing column. -/
def demoTable : DataFrame :=
  ⟨["name".data, "qty".data, "flag".data, "note".data],
   [[.vstr "x,y".data, .vint (-12), .vbool true, .vnull],
    [.vstr "ab".data, .vint 7, .vbool false, .vstr "hello".data]]⟩

/-- Two lines, each an independent JSON object. -/
def demoJsonLines : List Char := "\x7b\"a\": 1\x7d\n\x7b\"b\": 2\x7d".data

/-- The parses of the two lines above. -/
def demoLineObjs : List (List (List Char × Json)) :=
  [[("a".data, .jnum 1)], [("b".data, .jnum 2)]]

/-- The text of a cell drawing operation. -/
def cellText : PdfOp → Option (List Char)
  | .cell _ _ s _ => some s
  | .lineBreak _ => none

/-! ## Lemmas: decimal printing and reparsing of integers. -/

theorem digitChar_isDigit (d : Nat) : (digitChar d).isDigit = true := by
  rcases d with _ | _ | _ | _ | _ | _ | _ | _ | _ | d <;> rfl

theorem charDigit_digitChar (d : Nat) (h : d < 10) : charDigit (digitChar d) = d := by
  interval_cases d <;> rfl

theorem natToCharsAux_foldl (fuel : Nat) :
    ∀ n, n ≤ fuel → ∀ acc,
      List.foldl digitStep acc (natToCharsAux fuel n) =
        acc * 10 ^ (natToCharsAux fuel n).length + n := by
  induction fuel with
  | zero =>
    intro n hn acc
    interval_cases n
    simp [natToCharsAux]
  | succ fuel ih =>
    intro n hn acc
    by_cases h0 : n = 0
    · subst h0; simp [natToCharsAux]
    · have hdiv : n / 10 ≤ fuel := by
        have : n / 10 < n := Nat.div_lt_self (by omega) (by omega)
        omega
      have hrec := ih (n / 10) hdiv acc
      simp only [natToCharsAux, if_neg h0, List.foldl_append, List.length_append,
        List.foldl_cons, List.foldl_nil, List.length_cons, List.length_nil, hrec]
      have hd : charDigit (digitChar (n % 10)) = n % 10 :=
        charDigit_digitChar _ (Nat.mod_lt _ (by omega))
      have hpow : 10 ^ (0 + 1) = 10 := by norm_num
      simp only [digitStep, hd]
      have hmod := Nat.div_add_mod n 10
      calc 10 * (acc * 10 ^ (natToCharsAux fuel (n / 10)).length + n / 10) + n % 10
      _ = acc * 10 ^ ((natToCharsAux fuel (n / 10)).length + (0 + 1)) +
            (10 * (n / 10) + n % 10) := by ring
      _ = _ := by rw [hmod]

theorem natOfChars_natToChars (n : Nat) : natOfChars (natToChars n) = n := by
  by_cases h0 : n = 0
  · subst h0; rfl
  · have := natToCharsAux_foldl n n le_rfl 0
    simp only [natToChars, if_neg h0, natOfChars, this, Nat.zero_mul, Nat.zero_add]

theorem natToChars_ne_nil (n : Nat) : natToChars n ≠ [] := by
  by_cases h0 : n = 0
  · subst h0; simp [natToChars]
  · obtain ⟨m, rfl⟩ : ∃ m, n = m + 1 := ⟨n - 1, by omega⟩
    simp [natToChars, natToCharsAux]

theorem natToCharsAux_all_digits (fuel : Nat) :
    ∀ n, ((natToCharsAux fuel n).all Char.isDigit) = true := by
  induction fuel with
  | zero => intro n; rfl
  | succ fuel ih =>
    intro n
    by_cases h0 : n = 0
    · subst h0; rfl
    · simp only [natToCharsAux, if_neg h0, List.all_append, ih, Bool.true_and,
        List.all_cons, List.all_nil, digitChar_isDigit, Bool.and_true]

theorem natToChars_all_digits (n : Nat) : (natToChars n).all Char.isDigit = true := by
  by_cases h0 : n = 0
  · subst h0; rfl
  · simp only [natToChars, if_neg h0, natToCharsAux_all_digits]

theorem intLike_of_digits (s : List Char) (hne : s ≠ []) (hd : s.all Char.isDigit = true) :
    intLike s = true := by
  match s, hne with
  | c :: rest, _ =>
    have hc : c.isDigit = true := by
      have := List.all_eq_true.mp hd c (by simp)
      exact this
    have hcm : ¬(c = '-') := by
      intro h; subst h; simp at hc
    have hcp : ¬(c = '+') := by
      intro h; subst h; simp at hc
    simp [intLike, hcm, hcp, hd]

theorem intLike_intToChars (i : Int) : intLike (intToChars i) = true := by
  by_cases hneg : i < 0
  · simp only [intToChars, if_pos hneg]
    simp [intLike, natToChars_all_digits, List.isEmpty_iff, natToChars_ne_nil]
  · simp only [intToChars, if_neg hneg]
    exact intLike_of_digits _ (natToChars_ne_nil _) (natToChars_all_digits _)

theorem parseIntChars_not_sign (c : Char) (rest : List Char) (h1 : c ≠ '-') (h2 : c ≠ '+') :
    parseIntChars (c :: rest) = (natOfChars (c :: rest) : Int) := by
  unfold parseIntChars
  split
  · next heq =>
    rw [List.cons.injEq] at heq
    exact absurd heq.1 h1
  · next heq =>
    rw [List.cons.injEq] at heq
    exact absurd heq.1 h2
  · rfl

theorem parseIntChars_intToChars (i : Int) : parseIntChars (intToChars i) = i := by
  by_cases hneg : i < 0
  · have : parseIntChars ('-' :: natToChars i.natAbs) = -(natOfChars (natToChars i.natAbs) : Int) := rfl
    simp only [intToChars, if_pos hneg, this, natOfChars_natToChars]
    omega
  · simp only [intToChars, if_neg hneg]
    have hne := natToChars_ne_nil i.toNat
    have hdig := natToChars_all_digits i.toNat
    match h : natToChars i.toNat, hne with
    | c :: rest, _ =>
      rw [h] at hdig
      have hc : c.isDigit = true := by
        have := List.all_eq_true.mp hdig c (by simp)
        exact this
      have h1 : c ≠ '-' := by intro hh; subst hh; simp at hc
      have h2 : c ≠ '+' := by intro hh; subst hh; simp at hc
      rw [parseIntChars_not_sign c rest h1 h2, ← h, natOfChars_natToChars]
      omega

/-! ## Lemmas: the delimited-text tokenizer inverts the writer.  Stepping
equations for `parseRec` first, then field, record and file levels. -/

theorem parseRec_nil (m : Bool) : parseRec m [] = ([[]], []) := by cases m <;> rfl

theorem parseRecF_comma (cs : List Char) :
    parseRec false (',' :: cs) = ([] :: (parseRec false cs).1, (parseRec false cs).2) := rfl

theorem parseRecF_newline (cs : List Char) : parseRec false ('\n' :: cs) = ([[]], cs) := rfl

theorem parseRecF_quote (cs : List Char) : parseRec false ('"' :: cs) = parseRec true cs := rfl

theorem parseRecF_other (c : Char) (cs : List Char) (h1 : c ≠ ',') (h2 : c ≠ '\n')
    (h3 : c ≠ '"') : parseRec false (c :: cs) = consField c (parseRec false cs) := by
  have e : parseRec false (c :: cs) =
      if c = ',' then ([] :: (parseRec false cs).1, (parseRec false cs).2)
      else if c = '\n' then ([[]], cs)
      else if c = '"' then parseRec true cs
      else consField c (parseRec false cs) := rfl
  rw [e, if_neg h1, if_neg h2, if_neg h3]

theorem parseRecT_other (c : Char) (cs : List Char) (h : c ≠ '"') :
    parseRec true (c :: cs) = consField c (parseRec true cs) := by
  match cs with
  | [] => rw [parseRec.eq_3, if_neg h]
  | c2 :: cs2 => rw [parseRec.eq_4, if_neg h]

theorem parseRecT_qq (cs : List Char) :
    parseRec true ('"' :: '"' :: cs) = consField '"' (parseRec true cs) := rfl

theorem parseRecT_qend (c : Char) (cs : List Char) (h : c ≠ '"') :
    parseRec true ('"' :: c :: cs) = parseRec false (c :: cs) := by
  have e : parseRec true ('"' :: c :: cs) =
      if c = '"' then consField '"' (parseRec true cs) else parseRec false (c :: cs) := rfl
  rw [e, if_neg h]

/-- The tokenizer always produces at least one field. -/
theorem parseRec_fst_ne_nil (cs : List Char) : ∀ m, (parseRec m cs).1 ≠ [] := by
  induction cs with
  | nil => intro m; rw [parseRec_nil]; simp
  | cons c cs ih =>
    intro m
    cases m with
    | false =>
      by_cases h1 : c = ','
      · subst h1; rw [parseRecF_comma]; simp
      · by_cases h2 : c = '\n'
        · subst h2; rw [parseRecF_newline]; simp
        · by_cases h3 : c = '"'
          · subst h3; rw [parseRecF_quote]; exact ih true
          · rw [parseRecF_other c cs h1 h2 h3]
            rcases hp : parseRec false cs with ⟨fs, r⟩
            cases fs <;> simp [consField]
    | true =>
      by_cases h3 : c = '"'
      · subst h3
        match cs with
        | [] => rw [show parseRec true ['"'] = ([[]], []) from rfl]; simp
        | c2 :: cs2 =>
          by_cases h4 : c2 = '"'
          · subst h4; rw [parseRecT_qq]
            rcases hp : parseRec true cs2 with ⟨fs, r⟩
            cases fs <;> simp [consField]
          · rw [parseRecT_qend c2 cs2 h4]
            exact ih false
      · rw [parseRecT_other c cs h3]
        rcases hp : parseRec true cs with ⟨fs, r⟩
        cases fs <;> simp [consField]


theorem prependField_nil (p : List (List Char) × List Char) (hp : p.1 ≠ []) :
    prependField [] p = p := by
  rcases p with ⟨fs, r⟩
  cases fs with
  | nil => exact absurd rfl hp
  | cons g gs => simp [prependField]

theorem consField_prependField (c : Char) (f : List Char) (p : List (List Char) × List Char)
    (hp : p.1 ≠ []) : consField c (prependField f p) = prependField (c :: f) p := by
  rcases p with ⟨fs, r⟩
  cases fs with
  | nil => exact absurd rfl hp
  | cons g gs => simp [consField, prependField]

/-- Scanning an unquoted clean field prepends it to whatever follows. -/
theorem parseRecF_ext (f : List Char) (hf : needsQuote f = false) (cs : List Char) :
    parseRec false (f ++ cs) = prependField f (parseRec false cs) := by
  induction f with
  | nil => rw [List.nil_append, prependField_nil _ (parseRec_fst_ne_nil cs false)]
  | cons c f ih =>
    simp only [needsQuote, List.any_cons, Bool.or_eq_false_iff] at hf
    obtain ⟨hc, hrest⟩ := hf
    simp only [Bool.or_eq_false_iff, decide_eq_false_iff_not] at hc
    rw [List.cons_append,
      parseRecF_other c (f ++ cs) hc.1.1.1 hc.1.2 hc.1.1.2,
      ih (by simp only [needsQuote]; exact hrest),
      consField_prependField c f _ (parseRec_fst_ne_nil cs false)]

/-- Scanning escaped quoted content up to the closing quote prepends the
original content to what follows the quote. -/
theorem parseRecT_esc (f : List Char) (d : Char) (hd : d ≠ '"') (cs : List Char) :
    parseRec true (escQuotes f ++ '"' :: d :: cs) =
      prependField f (parseRec false (d :: cs)) := by
  induction f with
  | nil =>
    rw [show escQuotes [] = [] from rfl, List.nil_append, parseRecT_qend d cs hd,
      prependField_nil _ (parseRec_fst_ne_nil (d :: cs) false)]
  | cons c f ih =>
    by_cases hc : c = '"'
    · subst hc
      rw [show escQuotes ('"' :: f) = '"' :: '"' :: escQuotes f from rfl]
      rw [List.cons_append, List.cons_append, parseRecT_qq, ih,
        consField_prependField _ _ _ (parseRec_fst_ne_nil (d :: cs) false)]
    · rw [show escQuotes (c :: f) = c :: escQuotes f from by simp [escQuotes, hc]]
      rw [List.cons_append, parseRecT_other c _ hc, ih,
        consField_prependField _ _ _ (parseRec_fst_ne_nil (d :: cs) false)]

/-- A written field followed by a comma contributes one complete field. -/
theorem parseRec_field_comma (f : List Char) (cs : List Char) :
    parseRec false (writeField f ++ ',' :: cs) =
      (f :: (parseRec false cs).1, (parseRec false cs).2) := by
  by_cases hq : needsQuote f
  · rw [show writeField f ++ ',' :: cs = '"' :: (escQuotes f ++ '"' :: ',' :: cs) from by
      simp [writeField, hq]]
    rw [parseRecF_quote, parseRecT_esc f ',' (by decide) cs, parseRecF_comma]
    simp [prependField]
  · rw [show writeField f = f from by simp [writeField, hq]]
    rw [parseRecF_ext f (by simpa using hq), parseRecF_comma]
    simp [prependField]

/-- A written field followed by a newline closes the record. -/
theorem parseRec_field_newline (f : List Char) (cs : List Char) :
    parseRec false (writeField f ++ '\n' :: cs) = ([f], cs) := by
  by_cases hq : needsQuote f
  · rw [show writeField f ++ '\n' :: cs = '"' :: (escQuotes f ++ '"' :: '\n' :: cs) from by
      simp [writeField, hq]]
    rw [parseRecF_quote, parseRecT_esc f '\n' (by decide) cs, parseRecF_newline]
    simp [prependField]
  · rw [show writeField f = f from by simp [writeField, hq]]
    rw [parseRecF_ext f (by simpa using hq), parseRecF_newline]
    simp [prependField]

/-- The tokenizer inverts `writeRecord` on any nonempty record. -/
theorem parseRec_writeRecord (fields : List (List Char)) (hne : fields ≠ [])
    (cs : List Char) :
    parseRec false (writeRecord fields ++ '\n' :: cs) = (fields, cs) := by
  induction fields with
  | nil => exact absurd rfl hne
  | cons f rest ih =>
    cases rest with
    | nil =>
      by_cases hf : f = []
      · subst hf
        rw [show writeRecord [([] : List Char)] = ['"', '"'] from rfl]
        rw [show (['"', '"'] : List Char) ++ '\n' :: cs = '"' :: '"' :: '\n' :: cs from rfl,
          parseRecF_quote, parseRecT_qend '\n' cs (by decide), parseRecF_newline]
      · rw [show writeRecord [f] = writeField f from by simp [writeRecord, hf]]
        exact parseRec_field_newline f cs
    | cons g gs =>
      rw [show writeRecord (f :: g :: gs) = writeField f ++ ',' :: writeRecord (g :: gs) from rfl]
      rw [List.append_assoc, List.cons_append, parseRec_field_comma,
        ih (by simp)]

/-- A written nonempty record never starts with a newline. -/
theorem writeRecord_head (fields : List (List Char)) (hne : fields ≠ []) :
    ∃ c rest, writeRecord fields = c :: rest ∧ c ≠ '\n' := by
  have hfield : ∀ f : List Char, writeField f = [] ∨
      ∃ c rest, writeField f = c :: rest ∧ c ≠ '\n' := by
    intro f
    by_cases hq : needsQuote f
    · right
      exact ⟨'"', escQuotes f ++ ['"'], by simp [writeField, hq], by decide⟩
    · cases f with
      | nil => left; simp [writeField, needsQuote]
      | cons c rest =>
        right
        refine ⟨c, rest, by simp [writeField, hq], ?_⟩
        intro hcn
        subst hcn
        simp [needsQuote] at hq
  cases fields with
  | nil => exact absurd rfl hne
  | cons f rest =>
    cases rest with
    | nil =>
      by_cases hf : f = []
      · subst hf
        exact ⟨'"', ['"'], rfl, by decide⟩
      · rw [show writeRecord [f] = writeField f from by simp [writeRecord, hf]]
        rcases hfield f with hnil | ⟨c, r, hw, hc⟩
        · exfalso
          apply hf
          by_cases hq : needsQuote f
          · simp [writeField, hq] at hnil
          · simpa [writeField, hq] using hnil
        · exact ⟨c, r, hw, hc⟩
    | cons g gs =>
      rw [show writeRecord (f :: g :: gs) = writeField f ++ ',' :: writeRecord (g :: gs) from rfl]
      rcases hfield f with hnil | ⟨c, r, hw, hc⟩
      · rw [hnil, List.nil_append]
        exact ⟨',', writeRecord (g :: gs), rfl, by decide⟩
      · rw [hw, List.cons_append]
        exact ⟨c, r ++ ',' :: writeRecord (g :: gs), rfl, hc⟩

/-- The record splitter inverts `writeCsv` whenever enough fuel is
supplied; the top-level call always supplies enough. -/
theorem parseRecordsGo_write (records : List (List (List Char)))
    (hrec : ∀ r ∈ records, r ≠ []) :
    ∀ fuel, (writeCsv records).length ≤ fuel →
      parseRecordsGo fuel (writeCsv records) = records := by
  induction records with
  | nil =>
    intro fuel _
    cases fuel <;> rfl
  | cons r rs ih =>
    intro fuel hfuel
    have hr : r ≠ [] := hrec r (by simp)
    obtain ⟨c, rest, hw, hc⟩ := writeRecord_head r hr
    have hshape : writeCsv (r :: rs) = c :: (rest ++ '\n' :: writeCsv rs) := by
      rw [show writeCsv (r :: rs) = writeRecord r ++ '\n' :: writeCsv rs from rfl, hw]
      simp
    cases fuel with
    | zero =>
      rw [hshape] at hfuel
      simp at hfuel
    | succ fuel =>
      rw [hshape]
      have e : parseRecordsGo (fuel + 1) (c :: (rest ++ '\n' :: writeCsv rs)) =
          if c = '\n' then parseRecordsGo fuel (rest ++ '\n' :: writeCsv rs)
          else (parseRec false (c :: (rest ++ '\n' :: writeCsv rs))).1 ::
            parseRecordsGo fuel (parseRec false (c :: (rest ++ '\n' :: writeCsv rs))).2 := rfl
      rw [e, if_neg hc]
      have hrw : c :: (rest ++ '\n' :: writeCsv rs) = writeRecord r ++ '\n' :: writeCsv rs := by
        rw [hw]; simp
      rw [hrw, parseRec_writeRecord r hr]
      have hlen : (writeCsv rs).length ≤ fuel := by
        have : (writeCsv (r :: rs)).length = (writeRecord r).length + 1 + (writeCsv rs).length := by
          rw [show writeCsv (r :: rs) = writeRecord r ++ '\n' :: writeCsv rs from rfl]
          simp
          omega
        omega
      rw [ih (fun x hx => hrec x (by simp [hx])) fuel hlen]

/-- The record splitter inverts `writeCsv`. -/
theorem parseRecords_writeCsv (records : List (List (List Char)))
    (hrec : ∀ r ∈ records, r ≠ []) :
    parseRecords (writeCsv records) = records :=
  parseRecordsGo_write records hrec _ le_rfl

theorem intToChars_ne_nil (i : Int) : intToChars i ≠ [] := by
  by_cases hneg : i < 0
  · simp [intToChars, hneg]
  · simp only [intToChars, if_neg hneg]
    exact natToChars_ne_nil _

/-- NA sentinels are never integer-shaped. -/
theorem naTokens_not_intLike : ∀ t ∈ naTokens, intLike t = false := by decide

theorem naField_eq_false_iff (s : List Char) :
    naField s = false ↔ s ≠ [] ∧ s ∉ naTokens := by
  simp [naField, List.isEmpty_iff]

theorem naField_intToChars (n : Int) : naField (intToChars n) = false := by
  rw [naField_eq_false_iff]
  refine ⟨intToChars_ne_nil n, fun hmem => ?_⟩
  have h1 := naTokens_not_intLike _ hmem
  rw [intLike_intToChars n] at h1
  exact Bool.noConfusion h1

/-- A column whose fields are all non-missing keeps all of them. -/
theorem filter_nonNA_eq (fields : List (List Char))
    (h : ∀ s ∈ fields, naField s = false) :
    fields.filter (fun s => !naField s) = fields :=
  List.filter_eq_self.mpr (fun s hs => by rw [h s hs]; rfl)

/-- A column of written integer cells is converted as an integer column. -/
theorem colMode_int_col (cells : List Value) (h : ∀ v ∈ cells, isIntCell v) :
    colMode (cells.map cellField) = .cint := by
  have hf : ∀ s ∈ cells.map cellField, naField s = false ∧ intLike s = true := by
    intro s hs
    obtain ⟨v, hv, rfl⟩ := List.mem_map.mp hs
    have hiv := h v hv
    cases v with
    | vint n => exact ⟨naField_intToChars n, intLike_intToChars n⟩
    | vfloat n => exact hiv.elim
    | vstr s2 => exact hiv.elim
    | vbool b => exact hiv.elim
    | vnull => exact hiv.elim
    | vjson j => exact hiv.elim
  unfold colMode
  rw [filter_nonNA_eq _ (fun s hs => (hf s hs).1),
    if_pos (List.all_eq_true.mpr (fun s hs => (hf s hs).2)), if_pos rfl]

/-- Converting a written integer cell as an integer restores it. -/
theorem convert_int_cell (v : Value) (hv : isIntCell v) :
    convertField .cint (cellField v) = v := by
  cases v with
  | vint n =>
    show convertField .cint (intToChars n) = .vint n
    have h1 : convertField .cint (intToChars n) = .vint (parseIntChars (intToChars n)) := by
      unfold convertField
      rw [if_neg (by simp [naField_intToChars n])]
    rw [h1, parseIntChars_intToChars]
  | vfloat n => exact hv.elim
  | vstr s => exact hv.elim
  | vbool b => exact hv.elim
  | vnull => exact hv.elim
  | vjson j => exact hv.elim

/-- A nonempty column of written boolean cells is converted as a boolean
column. -/
theorem colMode_bool_col (cells : List Value) (hne : cells ≠ [])
    (h : ∀ v ∈ cells, isBoolCell v = true) :
    colMode (cells.map cellField) = .cbool := by
  have hf : ∀ s ∈ cells.map cellField,
      naField s = false ∧ boolField s = true ∧ intLike s = false := by
    intro s hs
    obtain ⟨v, hv, rfl⟩ := List.mem_map.mp hs
    have hbv := h v hv
    cases v with
    | vbool b => cases b <;> exact ⟨by decide, by decide, by decide⟩
    | vint n => simp [isBoolCell] at hbv
    | vfloat n => simp [isBoolCell] at hbv
    | vstr s2 => simp [isBoolCell] at hbv
    | vnull => simp [isBoolCell] at hbv
    | vjson j => simp [isBoolCell] at hbv
  unfold colMode
  rw [filter_nonNA_eq _ (fun s hs => (hf s hs).1)]
  rw [if_neg, if_pos ⟨List.all_eq_true.mpr (fun s hs => (hf s hs).2.1), rfl⟩]
  intro hAll
  match cells, hne with
  | c :: rest, _ =>
    have hmem : cellField c ∈ (c :: rest).map cellField := by simp
    have h1 := List.all_eq_true.mp hAll _ hmem
    rw [(hf _ hmem).2.2] at h1
    exact Bool.false_ne_true h1

/-- Converting a written boolean cell as a boolean restores it. -/
theorem convert_bool_cell (v : Value) (hv : isBoolCell v = true) :
    convertField .cbool (cellField v) = v := by
  cases v with
  | vbool b => cases b <;> rfl
  | vint n => simp [isBoolCell] at hv
  | vfloat n => simp [isBoolCell] at hv
  | vstr s => simp [isBoolCell] at hv
  | vnull => simp [isBoolCell] at hv
  | vjson j => simp [isBoolCell] at hv

/-- In a column of missing values and well-behaved strings, every cell is
restored: missing cells come back missing under any column mode, and a
string cell forces the raw-string mode. -/
theorem convert_strnull_cell (cells : List Value) (h : ∀ v ∈ cells, isStrNullCell v)
    (v : Value) (hv : v ∈ cells) :
    convertField (colMode (cells.map cellField)) (cellField v) = v := by
  have hv2 := h v hv
  cases v with
  | vnull =>
    show convertField _ [] = .vnull
    unfold convertField
    rw [if_pos (show naField [] = true from rfl)]
  | vstr s =>
    obtain ⟨hne, hnum, ht, hfl, hna⟩ := hv2
    have hsf : naField s = false := (naField_eq_false_iff s).mpr ⟨hne, hna⟩
    have hsmem : s ∈ (cells.map cellField).filter (fun x => !naField x) := by
      rw [List.mem_filter]
      exact ⟨List.mem_map.mpr ⟨.vstr s, hv, rfl⟩, by rw [hsf]; rfl⟩
    have hint : intLike s = false := by
      simp only [numLike, Bool.or_eq_false_iff] at hnum
      exact hnum.1.1
    have hbool : boolField s = false := by
      simp [boolField, ht, hfl]
    have hmode : colMode (cells.map cellField) = .cobj := by
      unfold colMode
      rw [if_neg, if_neg]
      · rintro ⟨hb, _⟩
        have h1 := List.all_eq_true.mp hb s hsmem
        rw [hbool] at h1
        exact Bool.false_ne_true h1
      · intro hAll
        have h1 := List.all_eq_true.mp hAll s hsmem
        rw [hint] at h1
        exact Bool.false_ne_true h1
    rw [hmode]
    show convertField .cobj s = .vstr s
    unfold convertField
    rw [if_neg (by simp [hsf])]
  | vint n => exact hv2.elim
  | vfloat n => exact hv2.elim
  | vbool b => exact hv2.elim
  | vjson j => exact hv2.elim

/-- Column-wise conversion restores every cell of a homogeneous column. -/
theorem goodColumn_convert (cells : List Value) (hcol : goodColumn cells)
    (v : Value) (hv : v ∈ cells) :
    convertField (colMode (cells.map cellField)) (cellField v) = v := by
  rcases hcol with hint | hbool | hsn
  · rw [colMode_int_col cells hint]
    exact convert_int_cell v (hint v hv)
  · have hne : cells ≠ [] := by
      intro hcontra
      subst hcontra
      exact absurd hv (List.not_mem_nil v)
    rw [colMode_bool_col cells hne hbool]
    exact convert_bool_cell v (hbool v hv)
  · exact convert_strnull_cell cells hsn v hv

theorem getD_map_of_lt {α β : Type} (f : α → β) (l : List α) (k : Nat) (d : β)
    (d2 : α) (h : k < l.length) : (l.map f).getD k d = f (l.getD k d2) := by
  induction l generalizing k with
  | nil => simp at h
  | cons a rest ih =>
    cases k with
    | zero => rfl
    | succ k =>
      show (rest.map f).getD k d = f (rest.getD k d2)
      exact ih k (by simpa using h)

theorem getD_range_map {β : Type} (f : Nat → β) (n k : Nat) (d : β) (h : k < n) :
    ((List.range n).map f).getD k d = f k := by
  rw [getD_map_of_lt f (List.range n) k d 0 (by simpa using h)]
  congr 1
  rw [List.getD_eq_getElem (List.range n) 0 (by simpa using h)]
  simp

/-- Zipping the per-column conversions over a written row restores the
row when every position restores. -/
theorem zipWith_convert_eq (modes : List ColMode) :
    ∀ row : List Value, modes.length = row.length →
    (∀ k, k < row.length →
      convertField (modes.getD k .cobj) (cellField (row.getD k .vnull)) =
        row.getD k .vnull) →
    List.zipWith convertField modes (row.map cellField) = row := by
  induction modes with
  | nil =>
    intro row h _
    cases row with
    | nil => rfl
    | cons v vs => simp at h
  | cons m ms ih =>
    intro row h hpt
    cases row with
    | nil => simp at h
    | cons v vs =>
      simp only [List.map_cons, List.zipWith_cons_cons]
      have h0 := hpt 0 (by simp)
      rw [show (m :: ms).getD 0 .cobj = m from rfl,
        show (v :: vs).getD 0 .vnull = v from rfl] at h0
      rw [h0]
      congr 1
      refine ih vs (by simpa using h) (fun k hk => ?_)
      exact hpt (k + 1) (by simpa using Nat.succ_lt_succ hk)

/-- Exact delimited-text round trip: for a dataset with nonempty,
duplicate-free column names, all rows of full width, and every column
homogeneous, re-parsing the encoder's output restores the dataset exactly
— including row count, column names, and every cell (missing values
included). -/
theorem read_csv_to_csv (df : DataFrame) (hc0 : df.cols ≠ [])
    (hcols : ∀ c ∈ df.cols, c ≠ []) (hnodup : df.cols.Nodup)
    (hlen : ∀ r ∈ df.rows, r.length = df.cols.length)
    (hcol : ∀ j, j < df.cols.length → goodColumn (colCells df j)) :
    read_csv (to_csv df) = some df := by
  have hrecs : parseRecords (to_csv df) =
      df.cols :: df.rows.map (fun r => r.map cellField) := by
    apply parseRecords_writeCsv
    intro r hr
    rcases List.mem_cons.mp hr with rfl | hmem
    · exact hc0
    · obtain ⟨row, hrow, rfl⟩ := List.mem_map.mp hmem
      have h1 : row.length = df.cols.length := hlen row hrow
      have h2 : df.cols.length ≠ 0 := by
        intro h
        exact hc0 (List.length_eq_zero.mp h)
      intro hcontra
      have h3 : (row.map cellField).length = 0 := by rw [hcontra]; rfl
      rw [List.length_map, h1] at h3
      exact h2 h3
  have hstep : read_csv (to_csv df) =
      if (df.rows.map (fun r => r.map cellField)).all
          (fun r => r.length = df.cols.length) then
        some ⟨df.cols, (df.rows.map (fun r => r.map cellField)).map
          (fun r => List.zipWith convertField
            ((List.range df.cols.length).map (fun j =>
              colMode ((df.rows.map (fun r => r.map cellField)).map
                (fun r => r.getD j [])))) r)⟩
      else none := by
    unfold read_csv
    rw [hrecs]
  rw [hstep]
  have hall : (df.rows.map (fun r => r.map cellField)).all
      (fun r => r.length = df.cols.length) = true := by
    rw [List.all_eq_true]
    intro r hr
    obtain ⟨row, hrow, rfl⟩ := List.mem_map.mp hr
    simp [hlen row hrow]
  rw [if_pos hall]
  have hfieldcol : ∀ j, j < df.cols.length →
      (df.rows.map (fun r => r.map cellField)).map (fun r => r.getD j []) =
        (colCells df j).map cellField := by
    intro j hj
    rw [List.map_map]
    unfold colCells
    rw [List.map_map]
    apply List.map_congr_left
    intro row hrow
    show (row.map cellField).getD j [] = cellField (row.getD j .vnull)
    exact getD_map_of_lt cellField row j [] .vnull (by rw [hlen row hrow]; exact hj)
  have hmodes : ∀ k, k < df.cols.length →
      (((List.range df.cols.length).map (fun j =>
        colMode ((df.rows.map (fun r => r.map cellField)).map
          (fun r => r.getD j [])))).getD k .cobj) =
      colMode ((colCells df k).map cellField) := by
    intro k hk
    rw [getD_range_map _ _ _ _ hk, hfieldcol k hk]
  have hX : (df.rows.map (fun r => r.map cellField)).map
      (fun r => List.zipWith convertField
        ((List.range df.cols.length).map (fun j =>
          colMode ((df.rows.map (fun r => r.map cellField)).map
            (fun r => r.getD j [])))) r) = df.rows := by
    rw [List.map_map]
    have hpt : ∀ row ∈ df.rows,
        ((fun r => List.zipWith convertField
          ((List.range df.cols.length).map (fun j =>
            colMode ((df.rows.map (fun r => r.map cellField)).map
              (fun r => r.getD j [])))) r) ∘ (fun r => r.map cellField)) row = row := by
      intro row hrow
      show List.zipWith convertField _ (row.map cellField) = row
      apply zipWith_convert_eq
      · rw [List.length_map, List.length_range, hlen row hrow]
      · intro k hk
        have hk2 : k < df.cols.length := by rw [← hlen row hrow]; exact hk
        rw [hmodes k hk2]
        exact goodColumn_convert (colCells df k) (hcol k hk2) (row.getD k .vnull)
          (List.mem_map.mpr ⟨row, hrow, rfl⟩)
    calc df.rows.map ((fun r => List.zipWith convertField
          ((List.range df.cols.length).map (fun j =>
            colMode ((df.rows.map (fun r => r.map cellField)).map
              (fun r => r.getD j [])))) r) ∘ (fun r => r.map cellField))
        = df.rows.map id := List.map_congr_left (fun row hrow => hpt row hrow)
      _ = df.rows := List.map_id _
  rw [hX]

/-! ## Lemmas: shape of the dataset built from parsed JSON. -/


theorem lookupKey_map_toCell (c : List Char) (fs : List (List Char × Json)) :
    lookupKey c (fs.map (fun kv => (kv.1, toCell kv.2))) = (jlookup c fs).map toCell := by
  induction fs with
  | nil => rfl
  | cons kv rest ih =>
    by_cases hk : kv.1 = c
    · simp [lookupKey, jlookup, hk]
    · simp only [List.map_cons, lookupKey, jlookup, if_neg hk, ih]

theorem mem_dedupKeys (c : List Char) :
    ∀ (l seen : List (List Char)), c ∈ dedupKeys seen l ↔ c ∈ l ∧ c ∉ seen := by
  intro l
  induction l with
  | nil => intro seen; simp [dedupKeys]
  | cons k ks ih =>
    intro seen
    by_cases hk : k ∈ seen
    · rw [show dedupKeys seen (k :: ks) = dedupKeys seen ks from by simp [dedupKeys, hk]]
      rw [ih seen]
      constructor
      · rintro ⟨h1, h2⟩
        exact ⟨by simp [h1], h2⟩
      · rintro ⟨h1, h2⟩
        rcases List.mem_cons.mp h1 with rfl | h1
        · exact absurd hk h2
        · exact ⟨h1, h2⟩
    · rw [show dedupKeys seen (k :: ks) = k :: dedupKeys (k :: seen) ks from by
        simp [dedupKeys, hk]]
      rw [List.mem_cons, ih (k :: seen)]
      constructor
      · rintro (rfl | ⟨h1, h2⟩)
        · exact ⟨by simp, hk⟩
        · refine ⟨by simp [h1], fun hc => h2 (by simp [hc])⟩
      · rintro ⟨h1, h2⟩
        by_cases hck : c = k
        · exact Or.inl hck
        · right
          rcases List.mem_cons.mp h1 with rfl | h1
          · exact absurd rfl hck
          · refine ⟨h1, fun hc => ?_⟩
            rcases List.mem_cons.mp hc with h | h
            · exact hck h
            · exact h2 h

theorem fetch_api_data_response (status : Nat) (j : Json) :
    fetch_api_data (.response status (some j)) =
      if 400 ≤ status ∧ status ≤ 599 then (emptyDF, [fetchErrorMsg])
      else (jsonToDf j, []) := rfl

theorem jsonToDf_jarr (xs : List Json) :
    jsonToDf (.jarr xs) =
      if xs.all isObjB then dfFromRecords xs else dfFromScalarList xs := rfl

theorem fetch_records_eq (xs : List Json) (status : Nat)
    (hs : ¬(400 ≤ status ∧ status ≤ 599)) (hobj : ∀ j ∈ xs, isObjB j = true) :
    fetch_api_data (.response status (some (.jarr xs))) = (dfFromRecords xs, []) := by
  rw [fetch_api_data_response, if_neg hs, jsonToDf_jarr,
    if_pos (List.all_eq_true.mpr hobj)]

theorem dfFromRows_cols (rs : List (List (List Char × Value))) :
    (dfFromRows rs).cols = dedupKeys [] (rs.map (fun r => r.map Prod.fst)).flatten := rfl

theorem dfFromRows_rows (rs : List (List (List Char × Value))) :
    (dfFromRows rs).rows =
      rs.map (fun r => (dfFromRows rs).cols.map (fun c => (lookupKey c r).getD .vnull)) := rfl

theorem dfFromRows_rows_length (rs : List (List (List Char × Value))) :
    (dfFromRows rs).rows.length = rs.length := by
  rw [dfFromRows_rows, List.length_map]

theorem dfFromRows_cols_mem (rs : List (List (List Char × Value))) (c : List Char) :
    c ∈ (dfFromRows rs).cols ↔ ∃ r ∈ rs, c ∈ r.map Prod.fst := by
  rw [dfFromRows_cols, mem_dedupKeys]
  constructor
  · rintro ⟨h1, _⟩
    obtain ⟨l, hl, hcl⟩ := List.mem_flatten.mp h1
    obtain ⟨r, hr, rfl⟩ := List.mem_map.mp hl
    exact ⟨r, hr, hcl⟩
  · rintro ⟨r, hr, hcr⟩
    refine ⟨List.mem_flatten.mpr ⟨r.map Prod.fst, List.mem_map.mpr ⟨r, hr, rfl⟩, hcr⟩, ?_⟩
    simp

theorem dfFromRows_cell (rs : List (List (List Char × Value))) (i k : Nat)
    (c : List Char) (r : List (List Char × Value))
    (hc : (dfFromRows rs).cols.get? k = some c) (hr : rs.get? i = some r) :
    ((dfFromRows rs).rows.get? i).bind (fun row => row.get? k) =
      some ((lookupKey c r).getD .vnull) := by
  rw [dfFromRows_rows, List.get?_map, hr]
  show ((dfFromRows rs).cols.map (fun c => (lookupKey c r).getD .vnull)).get? k = _
  rw [List.get?_map, hc]
  rfl

/-! ## Claim theorems. -/

/-- C1: for an API fetch whose body parses as a sequence of records, the
resulting Tabular Dataset has one row per record, its column set is the
union of all record field names, and the cell of row `i` at column `c` is
record `i`'s value for `c`, degrading to null when the field is missing
from that record. -/
theorem fetch_records_shape (xs : List Json) (status : Nat)
    (hs : ¬(400 ≤ status ∧ status ≤ 599))
    (hobj : ∀ j ∈ xs, isObjB j = true) :
    ((fetch_api_data (.response status (some (.jarr xs)))).1.rows.length = xs.length) ∧
    (∀ c, c ∈ (fetch_api_data (.response status (some (.jarr xs)))).1.cols ↔
      ∃ j ∈ xs, c ∈ recKeys j) ∧
    (∀ i j k c, xs.get? i = some j →
      (fetch_api_data (.response status (some (.jarr xs)))).1.cols.get? k = some c →
      ((fetch_api_data (.response status (some (.jarr xs)))).1.rows.get? i).bind
        (fun row => row.get? k) =
        some (((jlookup c (objFields j)).map toCell).getD .vnull)) := by
  rw [fetch_records_eq xs status hs hobj]
  rw [show ((dfFromRecords xs, ([] : List (List Char)))).1 = dfFromRecords xs from rfl]
  unfold dfFromRecords
  refine ⟨?_, ?_, ?_⟩
  · rw [dfFromRows_rows_length, List.length_map]
  · intro c
    rw [dfFromRows_cols_mem]
    have hmaps : ∀ j : Json,
        ((objFields j).map (fun kv => (kv.1, toCell kv.2))).map Prod.fst = recKeys j := by
      intro j
      rw [List.map_map]
      rfl
    constructor
    · rintro ⟨r, hr, hcr⟩
      obtain ⟨j, hj, rfl⟩ := List.mem_map.mp hr
      rw [hmaps j] at hcr
      exact ⟨j, hj, hcr⟩
    · rintro ⟨j, hj, hcj⟩
      refine ⟨(objFields j).map (fun kv => (kv.1, toCell kv.2)),
        List.mem_map.mpr ⟨j, hj, rfl⟩, ?_⟩
      rw [hmaps j]
      exact hcj
  · intro i j k c hi hc
    rw [dfFromRows_cell _ i k c ((objFields j).map (fun kv => (kv.1, toCell kv.2))) hc
      (by rw [List.get?_map, hi]; rfl)]
    rw [lookupKey_map_toCell]


theorem fetch_records_shape_witness :
    (¬(400 ≤ 200 ∧ 200 ≤ 599)) ∧ (∀ j ∈ demoRecords, isObjB j = true) ∧
    (fetch_api_data (.response 200 (some (.jarr demoRecords)))).1.rows.length = 2 :=
  ⟨by decide, by decide,
    (fetch_records_shape demoRecords 200 (by decide) (by decide)).1⟩

/-- C2 (amended): every failing fetch — a raised network error, a
client-error or server-error status (4xx/5xx), or an unparseable body —
is caught inside `fetch_api_data`, reported as a user-visible error
message, and replaced by the empty Tabular Dataset.  (A redirect-class
status outside this range is passed through, see the counterexample.) -/
theorem fetch_failure_boundary (r : ApiResult) (h : isFailure r) :
    fetch_api_data r = (emptyDF, [fetchErrorMsg]) := by
  cases r with
  | netError => rfl
  | response status body =>
    rcases h with h | h
    · cases body with
      | none => show (if 400 ≤ status ∧ status ≤ 599 then _ else _) = _; rw [if_pos h]
      | some j => rw [fetch_api_data_response, if_pos h]
    · subst h
      show (if 400 ≤ status ∧ status ≤ 599 then _ else _) = _
      by_cases hst : 400 ≤ status ∧ status ≤ 599
      · rw [if_pos hst]
      · rw [if_neg hst]

theorem fetch_failure_boundary_witness :
    isFailure .netError ∧ fetch_api_data .netError = (emptyDF, [fetchErrorMsg]) :=
  ⟨trivial, fetch_failure_boundary .netError trivial⟩

/-- C2 counterexample: a response with status 300 — not a success status —
whose body parses as a mapping is not caught: `fetch_api_data` returns a
one-row dataset and emits no warning, contradicting the claim that every
non-success status degrades to an empty dataset with a warning. -/
theorem fetch_non2xx_not_caught :
    httpSuccess 300 = false ∧
    fetch_api_data (.response 300 (some (.jobj [(['a'], .jnum 1)]))) =
      (⟨[['a']], [[.vint 1]]⟩, []) :=
  ⟨rfl, rfl⟩

/-- C4: a single-mapping body yields a dataset with exactly one row, and
a body whose top-level value is neither a sequence nor a mapping yields
the empty dataset: zero rows and zero columns. -/
theorem fetch_single_mapping_scalar (fs : List (List Char × Json)) (j : Json)
    (status status2 : Nat)
    (hs : ¬(400 ≤ status ∧ status ≤ 599)) (hs2 : ¬(400 ≤ status2 ∧ status2 ≤ 599))
    (hobj : isObjB j = false) (harr : ∀ xs, j ≠ .jarr xs) :
    (fetch_api_data (.response status (some (.jobj fs)))).1.rows.length = 1 ∧
    (fetch_api_data (.response status2 (some j))).1 = emptyDF ∧
    (fetch_api_data (.response status2 (some j))).1.rows.length = 0 ∧
    (fetch_api_data (.response status2 (some j))).1.cols.length = 0 := by
  have hscalar : jsonToDf j = emptyDF := by
    cases j with
    | jnull => rfl
    | jbool b => rfl
    | jnum n => rfl
    | jstr s => rfl
    | jarr xs => exact absurd rfl (harr xs)
    | jobj fs => simp [isObjB] at hobj
  refine ⟨?_, ?_, ?_, ?_⟩
  · rw [fetch_api_data_response, if_neg hs]
    rw [show jsonToDf (.jobj fs) = dfFromRecords [.jobj fs] from rfl]
    show (dfFromRecords [.jobj fs]).rows.length = 1
    unfold dfFromRecords
    rw [dfFromRows_rows_length]
    rfl
  · rw [fetch_api_data_response, if_neg hs2]
    exact hscalar
  · rw [fetch_api_data_response, if_neg hs2]
    show (jsonToDf j).rows.length = 0
    rw [hscalar]
    rfl
  · rw [fetch_api_data_response, if_neg hs2]
    show (jsonToDf j).cols.length = 0
    rw [hscalar]
    rfl

theorem fetch_single_mapping_scalar_witness :
    (¬(400 ≤ 200 ∧ 200 ≤ 599)) ∧ isObjB (.jnum 5) = false ∧
    (fetch_api_data (.response 200 (some (.jobj [("a".data, .jnum 1)])))).1.rows.length = 1 ∧
    (fetch_api_data (.response 200 (some (.jnum 5)))).1 = emptyDF :=
  ⟨by decide, rfl,
    (fetch_single_mapping_scalar [("a".data, .jnum 1)] (.jnum 5) 200 200 (by decide)
      (by decide) rfl (fun xs h => Json.noConfusion h)).1,
    (fetch_single_mapping_scalar [("a".data, .jnum 1)] (.jnum 5) 200 200 (by decide)
      (by decide) rfl (fun xs h => Json.noConfusion h)).2.1⟩

theorem seqOptions_map_some {α β : Type} (f : α → β) (l : List α) :
    seqOptions (l.map (fun a => some (f a))) = some (l.map f) := by
  induction l with
  | nil => rfl
  | cons a rest ih => simp [seqOptions, ih]

/-- C5: when the uploaded `.json` content fails single-document parsing
but every (non-blank) line parses as a JSON object, the upload branch
produces a dataset with exactly one row per line: row `i` is built from
the object on line `i`, in file order. -/
theorem json_lines_fallback (content : List Char)
    (objs : List (List (List Char × Json)))
    (hfail : json_loads content = none)
    (hlines : (linesOf content).map json_loads = objs.map (fun fs => some (.jobj fs))) :
    uploadJson content = some (dfFromRecords (objs.map .jobj)) ∧
    (dfFromRecords (objs.map .jobj)).rows.length = (linesOf content).length ∧
    (∀ i fs, objs.get? i = some fs →
      (dfFromRecords (objs.map .jobj)).rows.get? i =
        some ((dfFromRecords (objs.map .jobj)).cols.map
          (fun c => ((jlookup c fs).map toCell).getD .vnull))) := by
  have hlen : (linesOf content).length = objs.length := by
    have := congrArg List.length hlines
    simpa using this
  have hall : (objs.map Json.jobj).all isObjB = true := by
    rw [List.all_eq_true]
    intro x hx
    obtain ⟨fs, _, rfl⟩ := List.mem_map.mp hx
    rfl
  have h2 : uploadJson content = some (dfFromRecords (objs.map .jobj)) := by
    unfold uploadJson
    rw [hfail]
    unfold read_json_lines
    rw [hlines, seqOptions_map_some]
    show some (jsonToDf (.jarr (objs.map Json.jobj))) = _
    rw [jsonToDf_jarr, if_pos hall]
  refine ⟨h2, ?_, ?_⟩
  · unfold dfFromRecords
    rw [dfFromRows_rows_length, List.length_map, List.length_map, hlen]
  · intro i fs hi
    unfold dfFromRecords
    rw [dfFromRows_rows, List.get?_map, List.get?_map, List.get?_map, hi]
    show some _ = some _
    congr 1
    apply List.map_congr_left
    intro c _
    show (lookupKey c ((objFields (Json.jobj fs)).map
      (fun kv => (kv.1, toCell kv.2)))).getD .vnull = _
    rw [lookupKey_map_toCell]
    rfl



theorem json_lines_fallback_witness :
    json_loads demoJsonLines = none ∧
    (linesOf demoJsonLines).map json_loads =
      demoLineObjs.map (fun fs => some (.jobj fs)) ∧
    uploadJson demoJsonLines = some (dfFromRecords (demoLineObjs.map .jobj)) :=
  ⟨rfl, rfl, (json_lines_fallback demoJsonLines demoLineObjs rfl rfl).1⟩


theorem filterMap_flatten {α β : Type} (f : α → Option β) (l : List (List α)) :
    (l.flatten).filterMap f = (l.map (fun x => x.filterMap f)).flatten := by
  induction l with
  | nil => rfl
  | cons x xs ih => simp [List.filterMap_append, ih]

/-- C6: a malformed JSON string in the headers field or the body field
does not raise past the input-collection boundary: the value silently
degrades to `None` (no headers / no body) and no warning is emitted. -/
theorem header_body_silent_degrade (s t : List Char)
    (hs : json_loads s = none) (ht : json_loads t = none) :
    parseHeaderField s = (none, []) ∧ parseBodyField t = (none, []) := by
  unfold parseHeaderField parseBodyField
  rw [hs, ht]
  exact ⟨rfl, rfl⟩

theorem header_body_silent_degrade_witness :
    json_loads "\x7b".data = none ∧
    parseHeaderField "\x7b".data = (none, []) ∧
    parseBodyField "\x7b".data = (none, []) :=
  ⟨rfl, (header_body_silent_degrade "\x7b".data "\x7b".data rfl rfl).1,
    (header_body_silent_degrade "\x7b".data "\x7b".data rfl rfl).2⟩

/-- C7: when the dataset has zero rows the export section invokes no
encoder and offers no control (`none`); conversely, whenever the bundle
of encoder outputs exists, the dataset was non-empty on both axes — the
encoders only ever run on non-empty input. -/
theorem export_empty_guard (df : DataFrame) (now : Nat) :
    (df.rows = [] → exportSection now df = none) ∧
    (∀ b, exportSection now df = some b → df.rows ≠ [] ∧ df.cols ≠ []) := by
  constructor
  · intro h
    unfold exportSection
    have he : dfEmpty df = true := by simp [dfEmpty, h]
    rw [if_pos he]
  · intro b hb
    unfold exportSection at hb
    by_cases he : dfEmpty df = true
    · rw [if_pos he] at hb
      exact Option.noConfusion hb
    · rw [if_neg he] at hb
      simp only [dfEmpty, Bool.or_eq_true, List.isEmpty_iff] at he
      push_neg at he
      exact ⟨he.1, he.2⟩

theorem export_empty_guard_witness :
    emptyDF.rows = [] ∧ exportSection 0 emptyDF = none :=
  ⟨rfl, (export_empty_guard emptyDF 0).1 rfl⟩

/-- C8 (amended): the encoders are pure functions of the dataset and the
generation time, and deterministic modulo embedded generation timestamps:
the delimited-text bytes do not depend on the time at all, the
spreadsheet, word and PDF buffers agree on every content field across
generation times, and the PDF buffers are equal exactly when the
generation times coincide. -/
theorem export_deterministic_mod_timestamp (df : DataFrame) (t t2 : Nat) :
    ((fun _ : Nat => export_to_csv df) t = (fun _ : Nat => export_to_csv df) t2) ∧
    (export_to_excel t df).header = (export_to_excel t2 df).header ∧
    (export_to_excel t df).cells = (export_to_excel t2 df).cells ∧
    (export_to_word t df).heading = (export_to_word t2 df).heading ∧
    (export_to_word t df).table = (export_to_word t2 df).table ∧
    (export_to_pdf t df).ops = (export_to_pdf t2 df).ops ∧
    (export_to_pdf t df = export_to_pdf t2 df ↔ t = t2) := by
  refine ⟨rfl, rfl, rfl, rfl, rfl, rfl, ?_, ?_⟩
  · intro h
    exact congrArg PdfBuf.creationDate h
  · rintro rfl
    rfl

/-- C8 counterexample: the PDF buffer embeds the generation time, so two
invocations of the PDF encoder on the same dataset at different times are
not byte-identical (likewise the spreadsheet and word buffers, whose
archives carry creation and modification stamps). -/
theorem export_timestamp_cex :
    export_to_pdf 0 ⟨[['a']], [[.vint 1]]⟩ ≠ export_to_pdf 1 ⟨[['a']], [[.vint 1]]⟩ :=
  fun h => absurd (congrArg PdfBuf.creationDate h) (by decide)

/-- C9: in the PDF encoder, past the title cell and spacer, every drawn
cell — header and data alike — is bordered and has the uniform width
`page width / (column count + 1)` and uniform height `1.5 × font size`,
and the drawn texts are exactly the column names followed by the
stringified data cells in row order. -/
theorem pdf_uniform_grid (df : DataFrame) (now : Nat) (hne : df.rows ≠ []) :
    (∀ w h s b, PdfOp.cell w h s b ∈ (export_to_pdf now df).ops.drop 2 →
      w = pdfPageW / (df.cols.length + 1) ∧ h = pdfFontSize * (3 / 2) ∧ b = true) ∧
    ((export_to_pdf now df).ops.drop 2).filterMap cellText =
      df.cols ++ (df.rows.map (fun r => r.map pyStr)).flatten := by
  have hops : (export_to_pdf now df).ops.drop 2 =
      df.cols.map (fun c => PdfOp.cell (pdfPageW / (df.cols.length + 1))
        (pdfFontSize * (3 / 2)) c true) ++
      [PdfOp.lineBreak (pdfFontSize * (3 / 2))] ++
      (df.rows.map (fun r => r.map (fun v => PdfOp.cell (pdfPageW / (df.cols.length + 1))
        (pdfFontSize * (3 / 2)) (pyStr v) true) ++
        [PdfOp.lineBreak (pdfFontSize * (3 / 2))])).flatten := rfl
  rw [hops]
  constructor
  · intro w h s b hmem
    rcases List.mem_append.mp hmem with hmem | hflat
    · rcases List.mem_append.mp hmem with hcols | hlb
      · obtain ⟨c, _, heq⟩ := List.mem_map.mp hcols
        injection heq.symm with hw hh hs hb
        exact ⟨hw, hh, hb⟩
      · rcases List.mem_singleton.mp hlb with heq
        exact PdfOp.noConfusion heq
    · obtain ⟨l, hl, hml⟩ := List.mem_flatten.mp hflat
      obtain ⟨r, _, rfl⟩ := List.mem_map.mp hl
      rcases List.mem_append.mp hml with hcell | hlb
      · obtain ⟨v, _, heq⟩ := List.mem_map.mp hcell
        injection heq.symm with hw hh hs hb
        exact ⟨hw, hh, hb⟩
      · rcases List.mem_singleton.mp hlb with heq
        exact PdfOp.noConfusion heq
  · rw [List.filterMap_append, List.filterMap_append, filterMap_flatten]
    have hgen : ∀ (w h : ℚ) (l : List (List Char)),
        (l.map (fun c => PdfOp.cell w h c true)).filterMap cellText = l := by
      intro w h l
      induction l with
      | nil => rfl
      | cons c rest ih => simp [List.filterMap_cons, cellText, ih]
    have hgenv : ∀ (w h : ℚ) (r : List Value),
        (r.map (fun v => PdfOp.cell w h (pyStr v) true)).filterMap cellText = r.map pyStr := by
      intro w h r
      induction r with
      | nil => rfl
      | cons v rest ih => simp [List.filterMap_cons, cellText, ih]
    have hrows : ∀ r : List Value,
        (r.map (fun v => PdfOp.cell (pdfPageW / (df.cols.length + 1))
          (pdfFontSize * (3 / 2)) (pyStr v) true) ++
          [PdfOp.lineBreak (pdfFontSize * (3 / 2))]).filterMap cellText = r.map pyStr := by
      intro r
      rw [List.filterMap_append]
      simp [hgenv, cellText]
    rw [hgen]
    have : (df.rows.map (fun r => r.map (fun v => PdfOp.cell
        (pdfPageW / (df.cols.length + 1)) (pdfFontSize * (3 / 2)) (pyStr v) true) ++
        [PdfOp.lineBreak (pdfFontSize * (3 / 2))])).map (fun x => x.filterMap cellText) =
        df.rows.map (fun r => r.map pyStr) := by
      rw [List.map_map]
      exact List.map_congr_left (fun r _ => hrows r)
    rw [this]
    simp [cellText]

theorem pdf_uniform_grid_witness :
    (⟨[['a']], [[Value.vint 7]]⟩ : DataFrame).rows ≠ [] ∧
    ((export_to_pdf 0 ⟨[['a']], [[Value.vint 7]]⟩).ops.drop 2).filterMap cellText =
      [['a']] ++ (([[Value.vint 7]] : List (List Value)).map (fun r => r.map pyStr)).flatten :=
  ⟨List.cons_ne_nil _ _,
    (pdf_uniform_grid ⟨[['a']], [[Value.vint 7]]⟩ 0 (List.cons_ne_nil _ _)).2⟩

/-- C10: an uploaded file whose name ends in none of the exact lowercase
suffixes `.csv`, `.xlsx`, `.json` triggers no parsing action: the prior
dataset is kept, no error or warning is emitted, and the prior dataset is
what gets displayed. -/
theorem upload_unknown_suffix_noop (xlsxParse : List Char → Option DataFrame)
    (df0 : DataFrame) (name content : List Char)
    (h1 : endsWith name ".csv".data = false)
    (h2 : endsWith name ".xlsx".data = false)
    (h3 : endsWith name ".json".data = false) :
    handleUpload xlsxParse df0 name content = (df0, [], some df0) := by
  unfold handleUpload
  rw [if_neg (by simp [h1]), if_neg (by simp [h2]), if_neg (by simp [h3])]

theorem upload_unknown_suffix_noop_witness :
    endsWith "a.CSV".data ".csv".data = false ∧
    endsWith "a.CSV".data ".xlsx".data = false ∧
    endsWith "a.CSV".data ".json".data = false ∧
    handleUpload (fun _ => none) emptyDF "a.CSV".data [] = (emptyDF, [], some emptyDF) :=
  ⟨rfl, rfl, rfl, upload_unknown_suffix_noop (fun _ => none) emptyDF "a.CSV".data [] rfl rfl rfl⟩
